import Mathlib

/- Verification of the cleaning pipeline of src/app.py (function clean_data).

   A pandas DataFrame is modelled as a rectangular table: a list of column
   names, a list of column dtypes and a list of rows of cell values.  A cell
   value is either the missing marker (NaN/NaT), a Python string, a number
   (pandas numeric dtypes, modelled by rationals), or a parsed datetime.

   Each of the five stages of clean_data is embedded as a function on tables.
   The per-column loops of stages 2-5 of the source touch, for a column c,
   only the cells of c itself (and stage 3/4 read the fill statistic of c
   before filling c), so the sequential loops are embedded as simultaneous
   per-column maps, which compute the same table. -/

inductive Value where
  | na : Value
  | str : String → Value
  | num : Rat → Value
  | date : Nat → Value
deriving DecidableEq, Repr

inductive Dtype where
  | object : Dtype
  | number : Dtype
  | datetime : Dtype
deriving DecidableEq, Repr

@[ext]
structure Table where
  names : List String
  dtypes : List Dtype
  rows : List (List Value)
deriving DecidableEq, Repr

def emptyTable : Table := { names := [], dtypes := [], rows := [] }

/-- Rectangularity: every row has one cell per column (a DataFrame invariant). -/
abbrev Table.Rect (t : Table) : Prop := ∀ r ∈ t.rows, r.length = t.dtypes.length

/-- Column j of the table, as the list of its cells, top to bottom. -/
def colVals (t : Table) (j : Nat) : List Value := t.rows.map (fun r => r.getD j .na)

/- Stage 1: df = df.drop_duplicates() — keep the first occurrence of every
   row (pandas keep='first'); NaN cells compare equal, as in pandas. -/

def dedupFirstAux {α : Type} [DecidableEq α] (seen : List α) : List α → List α
  | [] => []
  | x :: xs => if x ∈ seen then dedupFirstAux seen xs else x :: dedupFirstAux (x :: seen) xs

def dedupFirst {α : Type} [DecidableEq α] (l : List α) : List α := dedupFirstAux [] l

def dropDuplicates (t : Table) : Table := { t with rows := dedupFirst t.rows }

/- Stage 2: for col in str_cols: df[col] = df[col].str.strip().
   .str.strip() trims whitespace from string cells, keeps NaN, and maps any
   non-string cell to NaN. -/

def isWS (c : Char) : Bool := c = ' ' || c = '\t' || c = '\n' || c = '\r'

def stripChars (l : List Char) : List Char :=
  ((l.dropWhile isWS).reverse.dropWhile isWS).reverse

def pyStrip (s : String) : String := String.mk (stripChars s.data)

def stripCell : Value → Value
  | .na => .na
  | .str s => .str (pyStrip s)
  | .num _ => .na
  | .date _ => .na

def stage2cell (d : Dtype) (v : Value) : Value := if d = .object then stripCell v else v

def stripColumns (snap : List Dtype) (t : Table) : Table :=
  { t with rows := t.rows.map (fun r => List.zipWith stage2cell snap r) }

/- Stage 3: for col in num_cols: df[col].fillna(df[col].median(), inplace=True).
   The median skips NaN; on an all-NaN column it is NaN, and filling with NaN
   replaces nothing. -/

def colNums (vs : List Value) : List Rat :=
  vs.filterMap (fun v => match v with | .num q => some q | _ => none)

def insertSorted (q : Rat) : List Rat → List Rat
  | [] => [q]
  | x :: xs => if q ≤ x then q :: x :: xs else x :: insertSorted q xs

def sortRats : List Rat → List Rat
  | [] => []
  | x :: xs => insertSorted x (sortRats xs)

def median (vs : List Value) : Value :=
  match sortRats (colNums vs) with
  | [] => .na
  | x :: xs =>
    let s := x :: xs
    let n := s.length
    if n % 2 = 1 then .num (s.getD (n / 2) 0)
    else .num ((s.getD (n / 2 - 1) 0 + s.getD (n / 2) 0) / 2)

def fillCell (fill : Value) (v : Value) : Value := if v = .na then fill else v

def medians (t : Table) : List Value :=
  (List.range t.dtypes.length).map (fun j => median (colVals t j))

def stage3cell (dm : Dtype × Value) (v : Value) : Value :=
  if dm.1 = .number then fillCell dm.2 v else v

def fillNumeric (t : Table) : Table :=
  { t with rows := t.rows.map (fun r => List.zipWith stage3cell (t.dtypes.zip (medians t)) r) }

/- Stage 4: for col in str_cols: mode_val = df[col].mode();
   fillna(mode_val[0]) if nonempty else fillna("Unknown").
   Series.mode() returns the most frequent non-NaN values sorted ascending,
   so mode()[0] is the lexicographically least among the most frequent. -/

def colStrs (vs : List Value) : List String :=
  vs.filterMap (fun v => match v with | .str s => some s | _ => none)

def pickMode (cnt : String → Nat) : List String → Option String
  | [] => none
  | s :: rest =>
    match pickMode cnt rest with
    | none => some s
    | some t => if cnt t < cnt s ∨ (cnt t = cnt s ∧ s < t) then some s else some t

def modeStr (l : List String) : Option String := pickMode (fun s => l.count s) (dedupFirst l)

def modeFill (t : Table) (j : Nat) : Value :=
  .str ((modeStr (colStrs (colVals t j))).getD "Unknown")

def modeFills (snap : List Dtype) (t : Table) : List Value :=
  (List.range snap.length).map (fun j => modeFill t j)

def stage4cell (dm : Dtype × Value) (v : Value) : Value :=
  if dm.1 = .object then fillCell dm.2 v else v

def fillCategorical (snap : List Dtype) (t : Table) : Table :=
  { t with rows := t.rows.map (fun r => List.zipWith stage4cell (snap.zip (modeFills snap t)) r) }

/- Stage 5: for col in df.columns: if dtype == object: try df[col] =
   pd.to_datetime(df[col]) except: pass.  to_datetime maps NaN to NaT and
   fails if any non-missing cell does not parse; on failure the column is
   left as is.  The date parser of the library is modelled as an ISO
   YYYY-MM-DD parser. -/

def splitDash : List Char → List (List Char)
  | [] => [[]]
  | c :: cs =>
    if c = '-' then [] :: splitDash cs
    else
      match splitDash cs with
      | [] => [[c]]
      | g :: gs => (c :: g) :: gs

def digitsToNat (l : List Char) : Nat := l.foldl (fun n c => n * 10 + (c.toNat - 48)) 0

def allDigits (l : List Char) : Bool := l.all Char.isDigit

def parseDate (s : String) : Option Nat :=
  match splitDash s.data with
  | [y, m, d] =>
    if y.length = 4 ∧ allDigits y ∧ m.length = 2 ∧ allDigits m ∧ d.length = 2 ∧ allDigits d
        ∧ 1 ≤ digitsToNat m ∧ digitsToNat m ≤ 12 ∧ 1 ≤ digitsToNat d ∧ digitsToNat d ≤ 31
    then some (digitsToNat y * 10000 + digitsToNat m * 100 + digitsToNat d)
    else none
  | _ => none

def parseCell : Value → Except String Value
  | .na => .ok .na
  | .str s =>
    match parseDate s with
    | some n => .ok (.date n)
    | none => .error "could not parse"
  | .num _ => .error "could not parse"
  | .date n => .ok (.date n)

def to_datetime : List Value → Except String (List Value)
  | [] => .ok []
  | v :: vs =>
    match parseCell v with
    | .error e => .error e
    | .ok w =>
      match to_datetime vs with
      | .error e => .error e
      | .ok ws => .ok (w :: ws)

def okMask (t : Table) : List Bool :=
  (List.range t.dtypes.length).map (fun j =>
    decide (t.dtypes.getD j .number = .object) && (to_datetime (colVals t j)).toOption.isSome)

def coerceCell (o : Bool) (v : Value) : Value :=
  if o then (parseCell v).toOption.getD v else v

def coerceDates (t : Table) : Table :=
  { names := t.names
    dtypes := List.zipWith (fun d (o : Bool) => if o then Dtype.datetime else d) t.dtypes (okMask t)
    rows := t.rows.map (fun r => List.zipWith coerceCell (okMask t) r) }

/-- The five-stage pipeline clean_data of src/app.py.  str_cols is the
text-column snapshot taken once, before stripping, and reused by stage 4. -/
def clean_data (df : Table) : Table :=
  let df1 := dropDuplicates df
  let str_cols := df1.dtypes
  let df2 := stripColumns str_cols df1
  let df3 := fillNumeric df2
  let df4 := fillCategorical str_cols df3
  coerceDates df4

/- Exception-explicit variant: the pipeline in the Except monad, where the
   only raise site (pd.to_datetime) propagates an error unless caught, and
   the source's try/except around each column's coercion is the catch. -/

def catchE {α : Type} (x : Except String α) (h : String → Except String α) : Except String α :=
  match x with
  | .ok a => .ok a
  | .error e => h e

def okColE (t : Table) (j : Nat) : Except String Bool :=
  if t.dtypes.getD j .number = .object then
    catchE ((to_datetime (colVals t j)).map (fun _ => true)) (fun _ => .ok false)
  else .ok false

def mapME {α : Type} (f : α → Except String Bool) : List α → Except String (List Bool)
  | [] => .ok []
  | a :: l =>
    match f a with
    | .error e => .error e
    | .ok b =>
      match mapME f l with
      | .error e => .error e
      | .ok bs => .ok (b :: bs)

def clean_data_exn (df : Table) : Except String Table :=
  let df1 := dropDuplicates df
  let str_cols := df1.dtypes
  let df2 := stripColumns str_cols df1
  let df3 := fillNumeric df2
  let df4 := fillCategorical str_cols df3
  match mapME (okColE df4) (List.range df4.dtypes.length) with
  | .error e => .error e
  | .ok mask =>
    .ok { names := df4.names
          dtypes := List.zipWith (fun d (o : Bool) => if o then Dtype.datetime else d) df4.dtypes mask
          rows := df4.rows.map (fun r => List.zipWith coerceCell mask r) }

/- Reference-passing variant: a store of table objects models Python object
   identity.  The line df = df.drop_duplicates() allocates a fresh object and
   rebinds the local df to it; stages 2-5 then mutate that fresh object in
   place.  The pair returned is (final store, reference held by df). -/

abbrev Store := List Table

def clean_data_ref (st : Store) (r : Nat) : Store × Nat :=
  let df1 := dropDuplicates (st.getD r emptyTable)
  let r1 := st.length
  let st1 := st ++ [df1]
  let str_cols := (st1.getD r1 emptyTable).dtypes
  let st2 := st1.set r1 (stripColumns str_cols (st1.getD r1 emptyTable))
  let st3 := st2.set r1 (fillNumeric (st2.getD r1 emptyTable))
  let st4 := st3.set r1 (fillCategorical str_cols (st3.getD r1 emptyTable))
  let st5 := st4.set r1 (coerceDates (st4.getD r1 emptyTable))
  (st5, r1)

/-- A cell a pandas numeric column can actually hold: a number or NaN. -/
def Value.isNumOrNa : Value → Bool
  | .na => true
  | .num _ => true
  | .str _ => false
  | .date _ => false

/-- Well-typedness of numeric columns: a number-dtype column holds only
numbers and missing markers (any float64/int64 column satisfies this). -/
abbrev Table.NumWellTyped (t : Table) : Prop :=
  ∀ j ∈ List.range t.dtypes.length,
    t.dtypes.getD j .number = .number → ∀ v ∈ colVals t j, v.isNumOrNa = true


/- Concrete example tables used in the concrete theorems below. -/

def exTstrip : Table := ⟨["a"], [.object], [[.str " x"], [.str "x"]]⟩

def exTone : Table := ⟨["a"], [.object], [[.str "a"]]⟩

def exTdates : Table := ⟨["d"], [.object], [[.str "2024-01-01"], [.na]]⟩

def exTdtcol : Table := ⟨["d"], [.datetime], [[.date 0], [.na]]⟩

def exTmixed : Table := ⟨["s", "n"], [.object, .number],
  [[.str " a ", .num 1], [.na, .na], [.str "b", .num 3], [.str "c", .num 2]]⟩

def exTnumlike : Table := ⟨["n"], [.object], [[.str "12"], [.na]]⟩

def exTallna : Table := ⟨["n"], [.number], [[.na]]⟩

def exTobjmix : Table := ⟨["m"], [.object], [[.num 1], [.str "a"]]⟩

def exTcell : Table := ⟨["a"], [.object], [[.str " x"]]⟩

/- List-level helper lemmas. -/

theorem zipWith_getD {α β γ : Type} (f : α → β → γ) (a : List α) (b : List β) (j : Nat)
    (ha : j < a.length) (hb : j < b.length) (da : α) (db : β) (dc : γ) :
    (List.zipWith f a b).getD j dc = f (a.getD j da) (b.getD j db) := by
  have hz : j < (List.zipWith f a b).length := by
    simp only [List.length_zipWith]
    omega
  rw [List.getD_eq_getElem _ _ hz, List.getD_eq_getElem _ _ ha, List.getD_eq_getElem _ _ hb]
  rw [List.getElem_zipWith]

theorem getD_range_map {γ : Type} (f : Nat → γ) (n j : Nat) (hj : j < n) (d : γ) :
    ((List.range n).map f).getD j d = f j := by
  have h1 : j < ((List.range n).map f).length := by simpa using hj
  rw [List.getD_eq_getElem _ _ h1]
  simp

theorem getD_zip {α β : Type} (a : List α) (b : List β) (j : Nat)
    (ha : j < a.length) (hb : j < b.length) (da : α) (db : β) :
    (a.zip b).getD j (da, db) = (a.getD j da, b.getD j db) := by
  simpa [List.zip] using zipWith_getD Prod.mk a b j ha hb da db (da, db)

theorem mem_dedupFirstAux {α : Type} [DecidableEq α] (seen : List α) (l : List α) (x : α) :
    x ∈ dedupFirstAux seen l ↔ x ∈ l ∧ x ∉ seen := by
  induction l generalizing seen with
  | nil => simp [dedupFirstAux]
  | cons a l ih =>
    simp only [dedupFirstAux]
    by_cases h : a ∈ seen
    · rw [if_pos h, ih]
      constructor
      · rintro ⟨hx, hs⟩
        exact ⟨List.mem_cons_of_mem _ hx, hs⟩
      · rintro ⟨hx, hs⟩
        rcases List.mem_cons.mp hx with rfl | hx2
        · exact absurd h hs
        · exact ⟨hx2, hs⟩
    · rw [if_neg h]
      constructor
      · intro hx
        rcases List.mem_cons.mp hx with rfl | hx2
        · exact ⟨List.mem_cons_self _ _, h⟩
        · obtain ⟨hl, hs⟩ := (ih (a :: seen)).mp hx2
          exact ⟨List.mem_cons_of_mem _ hl, fun hc => hs (List.mem_cons_of_mem _ hc)⟩
      · rintro ⟨hx, hs⟩
        rcases List.mem_cons.mp hx with rfl | hx2
        · exact List.mem_cons_self _ _
        · by_cases hxa : x = a
          · subst hxa
            exact List.mem_cons_self _ _
          · refine List.mem_cons_of_mem _ ((ih (a :: seen)).mpr ⟨hx2, ?_⟩)
            intro hc
            rcases List.mem_cons.mp hc with h1 | h1
            · exact hxa h1
            · exact hs h1

theorem dedupFirstAux_sublist {α : Type} [DecidableEq α] (seen : List α) (l : List α) :
    List.Sublist (dedupFirstAux seen l) l := by
  induction l generalizing seen with
  | nil => simp [dedupFirstAux]
  | cons a l ih =>
    by_cases h : a ∈ seen
    · simp only [dedupFirstAux, if_pos h]
      exact (ih seen).trans (List.sublist_cons_self a l)
    · simp only [dedupFirstAux, if_neg h]
      exact (ih (a :: seen)).cons₂ a

theorem nodup_dedupFirstAux {α : Type} [DecidableEq α] (seen : List α) (l : List α) :
    (dedupFirstAux seen l).Nodup := by
  induction l generalizing seen with
  | nil => simp [dedupFirstAux]
  | cons a l ih =>
    by_cases h : a ∈ seen
    · simpa only [dedupFirstAux, if_pos h] using ih seen
    · simp only [dedupFirstAux, if_neg h, List.nodup_cons]
      refine ⟨fun hc => ?_, ih (a :: seen)⟩
      exact ((mem_dedupFirstAux _ _ _).mp hc).2 (List.mem_cons_self a seen)

theorem mem_dedupFirst {α : Type} [DecidableEq α] (l : List α) (x : α) :
    x ∈ dedupFirst l ↔ x ∈ l := by
  simp [dedupFirst, mem_dedupFirstAux]

theorem dedupFirst_sublist {α : Type} [DecidableEq α] (l : List α) :
    List.Sublist (dedupFirst l) l :=
  dedupFirstAux_sublist [] l

theorem nodup_dedupFirst {α : Type} [DecidableEq α] (l : List α) : (dedupFirst l).Nodup :=
  nodup_dedupFirstAux [] l

theorem dedupFirstAux_eq_self {α : Type} [DecidableEq α] (seen : List α) (l : List α)
    (h : l.Nodup) (hs : ∀ x ∈ l, x ∉ seen) : dedupFirstAux seen l = l := by
  induction l generalizing seen with
  | nil => simp [dedupFirstAux]
  | cons a l ih =>
    have ha : a ∉ seen := hs a (List.mem_cons_self a l)
    simp only [dedupFirstAux, if_neg ha]
    congr 1
    refine ih (a :: seen) (List.Nodup.of_cons h) (fun x hx => ?_)
    intro hc
    rcases List.mem_cons.mp hc with rfl | h1
    · exact (List.nodup_cons.mp h).1 hx
    · exact hs x (List.mem_cons_of_mem _ hx) h1

theorem dedupFirst_eq_self {α : Type} [DecidableEq α] {l : List α} (h : l.Nodup) :
    dedupFirst l = l :=
  dedupFirstAux_eq_self [] l h (by simp)

theorem length_dedupFirst {α : Type} [DecidableEq α] (l : List α) :
    (dedupFirst l).length = l.dedup.length := by
  have h1 : (dedupFirst l).toFinset = l.toFinset := by
    ext x
    simp [List.mem_toFinset, mem_dedupFirst]
  have h2 : (dedupFirst l).toFinset.card = (dedupFirst l).length :=
    List.toFinset_card_of_nodup (nodup_dedupFirst l)
  have h3 : l.toFinset.card = l.dedup.length := List.card_toFinset l
  rw [h1, h3] at h2
  omega

theorem dedupFirstAux_filter {α : Type} [DecidableEq α] (l : List α) :
    ∀ (s1 s2 : List α), dedupFirstAux (s1 ++ s2) l
      = dedupFirstAux s1 (l.filter (fun x => decide (x ∉ s2))) := by
  induction l with
  | nil =>
    intro s1 s2
    simp [dedupFirstAux]
  | cons a l ih =>
    intro s1 s2
    rw [List.filter_cons]
    by_cases h2 : a ∈ s2
    · have hd : (decide (a ∉ s2)) = false := by simp [h2]
      rw [hd]
      have hmem : a ∈ s1 ++ s2 := List.mem_append_right _ h2
      simp only [dedupFirstAux, if_pos hmem, Bool.false_eq_true, if_false]
      exact ih s1 s2
    · have hd : (decide (a ∉ s2)) = true := by simp [h2]
      rw [hd, if_pos rfl]
      by_cases h1 : a ∈ s1
      · have hmem : a ∈ s1 ++ s2 := List.mem_append_left _ h1
        simp only [dedupFirstAux, if_pos hmem, if_pos h1]
        exact ih s1 s2
      · have hmem : a ∉ s1 ++ s2 := by
          simp [List.mem_append, h1, h2]
        simp only [dedupFirstAux, if_neg hmem, if_neg h1]
        congr 1
        have he : a :: (s1 ++ s2) = (a :: s1) ++ s2 := rfl
        rw [he, ih (a :: s1) s2]

theorem dedupFirst_cons {α : Type} [DecidableEq α] (a : α) (l : List α) :
    dedupFirst (a :: l) = a :: dedupFirst (l.filter (fun x => decide (x ≠ a))) := by
  have h : dedupFirst (a :: l) = a :: dedupFirstAux [a] l := by
    simp [dedupFirst, dedupFirstAux]
  rw [h]
  congr 1
  have h2 := dedupFirstAux_filter l [] [a]
  simp only [List.nil_append] at h2
  rw [h2]
  congr 1
  apply List.filter_congr
  intro x _
  simp

/- Whitespace stripping lemmas. -/

theorem dropWhile_idem {α : Type} (p : α → Bool) (l : List α) :
    (l.dropWhile p).dropWhile p = l.dropWhile p := by
  induction l with
  | nil => rfl
  | cons a l ih =>
    by_cases h : p a = true
    · rw [List.dropWhile_cons_of_pos h, ih]
    · rw [List.dropWhile_cons_of_neg h, List.dropWhile_cons_of_neg h]

theorem dropWhile_isSuffix {α : Type} (p : α → Bool) (l : List α) :
    List.IsSuffix (l.dropWhile p) l := by
  induction l with
  | nil => exact List.suffix_refl _
  | cons a l ih =>
    by_cases h : p a = true
    · rw [List.dropWhile_cons_of_pos h]
      exact ih.trans (List.suffix_cons a l)
    · rw [List.dropWhile_cons_of_neg h]

theorem frontStripped_of_isPrefix {α : Type} (p : α → Bool) (a b : List α)
    (ha : a.dropWhile p = a) (hp : List.IsPrefix b a) : b.dropWhile p = b := by
  cases b with
  | nil => rfl
  | cons x t =>
    obtain ⟨s, hs⟩ := hp
    have hxa : a = x :: (t ++ s) := by rw [← hs]; rfl
    have hx : p x ≠ true := by
      intro hpx
      rw [hxa, List.dropWhile_cons_of_pos hpx] at ha
      have h1 : ((t ++ s).dropWhile p).length ≤ (t ++ s).length :=
        (List.dropWhile_sublist p).length_le
      rw [ha] at h1
      simp at h1
    rw [List.dropWhile_cons_of_neg hx]

theorem stripChars_idem (l : List Char) : stripChars (stripChars l) = stripChars l := by
  unfold stripChars
  set A := l.dropWhile isWS with hA
  set B := (A.reverse.dropWhile isWS).reverse with hB
  have hAfront : A.dropWhile isWS = A := dropWhile_idem isWS l
  have hBrev : B.reverse = A.reverse.dropWhile isWS := by rw [hB, List.reverse_reverse]
  have hBpre : List.IsPrefix B A := by
    obtain ⟨s, hs⟩ : List.IsSuffix (A.reverse.dropWhile isWS) A.reverse :=
      dropWhile_isSuffix isWS A.reverse
    refine ⟨s.reverse, ?_⟩
    have h2 : A = (s ++ B.reverse).reverse := by rw [hBrev, hs, List.reverse_reverse]
    rw [h2, List.reverse_append, List.reverse_reverse]
  have hBfront : B.dropWhile isWS = B := frontStripped_of_isPrefix isWS A B hAfront hBpre
  rw [hBfront, hBrev, dropWhile_idem]

theorem pyStrip_idem (s : String) : pyStrip (pyStrip s) = pyStrip s := by
  unfold pyStrip
  exact congrArg String.mk (stripChars_idem s.data)

/-- A string is in stripped form when stripping it changes nothing. -/
theorem pyStrip_unknown : pyStrip "Unknown" = "Unknown" := by decide

/- Median lemmas. -/

theorem length_insertSorted (q : Rat) (l : List Rat) :
    (insertSorted q l).length = l.length + 1 := by
  induction l with
  | nil => rfl
  | cons x xs ih =>
    by_cases h : q ≤ x
    · simp [insertSorted, h]
    · simp [insertSorted, h, ih]

theorem length_sortRats (l : List Rat) : (sortRats l).length = l.length := by
  induction l with
  | nil => rfl
  | cons x xs ih => simp [sortRats, length_insertSorted, ih]

theorem median_eq_na_iff (vs : List Value) : median vs = .na ↔ colNums vs = [] := by
  constructor
  · intro h
    by_contra hne
    have hlen : (sortRats (colNums vs)).length = (colNums vs).length := length_sortRats _
    cases hs : sortRats (colNums vs) with
    | nil =>
      rw [hs] at hlen
      exact hne (List.length_eq_zero.mp hlen.symm)
    | cons x xs =>
      unfold median at h
      rw [hs] at h
      dsimp only at h
      split at h <;> exact absurd h (by simp)
  · intro h
    unfold median
    rw [h]
    rfl

theorem colNums_eq_nil_iff (vs : List Value) :
    colNums vs = [] ↔ ∀ q : Rat, Value.num q ∉ vs := by
  unfold colNums
  rw [List.filterMap_eq_nil_iff]
  constructor
  · intro h q hq
    have := h _ hq
    simp at this
  · intro h v hv
    cases v with
    | num q => exact absurd hv (h q)
    | na => rfl
    | str s => rfl
    | date n => rfl

/- Mode lemmas. -/

theorem pickMode_mem (cnt : String → Nat) (l : List String) (t : String)
    (h : pickMode cnt l = some t) : t ∈ l := by
  induction l with
  | nil => simp [pickMode] at h
  | cons s rest ih =>
    unfold pickMode at h
    cases hr : pickMode cnt rest with
    | none =>
      rw [hr] at h
      dsimp only at h
      cases h
      exact List.mem_cons_self _ _
    | some u =>
      rw [hr] at h
      dsimp only at h
      split at h
      · cases h
        exact List.mem_cons_self _ _
      · cases h
        exact List.mem_cons_of_mem _ (ih hr)

theorem pickMode_eq_none_iff (cnt : String → Nat) (l : List String) :
    pickMode cnt l = none ↔ l = [] := by
  cases l with
  | nil => simp [pickMode]
  | cons s rest =>
    constructor
    · intro h
      exfalso
      unfold pickMode at h
      cases hr : pickMode cnt rest with
      | none =>
        rw [hr] at h
        dsimp only at h
        cases h
      | some u =>
        rw [hr] at h
        dsimp only at h
        split at h <;> cases h
    · intro h
      exact absurd h (by simp)

theorem modeStr_mem (l : List String) (t : String) (h : modeStr l = some t) : t ∈ l := by
  have := pickMode_mem _ _ _ h
  exact (mem_dedupFirst _ _).mp this

theorem modeStr_eq_none_iff (l : List String) : modeStr l = none ↔ l = [] := by
  unfold modeStr
  rw [pickMode_eq_none_iff]
  constructor
  · intro h
    cases l with
    | nil => rfl
    | cons a l =>
      rw [dedupFirst_cons] at h
      simp at h
  · intro h
    rw [h]
    rfl

/- to_datetime lemmas. -/

theorem to_datetime_ok_iff (vs : List Value) :
    (∃ ds, to_datetime vs = .ok ds) ↔ ∀ v ∈ vs, ∃ w, parseCell v = .ok w := by
  induction vs with
  | nil => simp [to_datetime]
  | cons v vs ih =>
    simp only [to_datetime]
    constructor
    · rintro ⟨ds, hds⟩
      cases hp : parseCell v with
      | error e => rw [hp] at hds; exact absurd hds (by simp)
      | ok w =>
        rw [hp] at hds
        cases ht : to_datetime vs with
        | error e => rw [ht] at hds; exact absurd hds (by simp)
        | ok ws =>
          intro u hu
          rcases List.mem_cons.mp hu with rfl | hu2
          · exact ⟨w, hp⟩
          · exact (ih.mp ⟨ws, ht⟩) u hu2
    · intro h
      obtain ⟨w, hw⟩ := h v (List.mem_cons_self _ _)
      obtain ⟨ws, hws⟩ := ih.mpr (fun u hu => h u (List.mem_cons_of_mem _ hu))
      exact ⟨w :: ws, by rw [hw, hws]⟩

theorem to_datetime_error_iff (vs : List Value) :
    (∃ e, to_datetime vs = .error e) ↔ ∃ v ∈ vs, ∃ e, parseCell v = .error e := by
  constructor
  · rintro ⟨e, he⟩
    by_contra hne
    push_neg at hne
    have hall : ∀ v ∈ vs, ∃ w, parseCell v = .ok w := by
      intro v hv
      cases hp : parseCell v with
      | error e2 => exact absurd hp (by simpa using hne v hv e2)
      | ok w => exact ⟨w, rfl⟩
    obtain ⟨ds, hds⟩ := (to_datetime_ok_iff vs).mpr hall
    rw [hds] at he
    exact absurd he (by simp)
  · rintro ⟨v, hv, e, he⟩
    cases hok : to_datetime vs with
    | error e2 => exact ⟨e2, rfl⟩
    | ok ds =>
      obtain ⟨w, hw⟩ := (to_datetime_ok_iff vs).mp ⟨ds, hok⟩ v hv
      rw [hw] at he
      exact absurd he (by simp)

theorem to_datetime_ok_eq (vs ds : List Value) (h : to_datetime vs = .ok ds) :
    ds = vs.map (fun v => (parseCell v).toOption.getD v) := by
  induction vs generalizing ds with
  | nil =>
    simp only [to_datetime] at h
    cases h
    rfl
  | cons v vs ih =>
    simp only [to_datetime] at h
    cases hp : parseCell v with
    | error e => rw [hp] at h; exact absurd h (by simp)
    | ok w =>
      rw [hp] at h
      cases ht : to_datetime vs with
      | error e => rw [ht] at h; exact absurd h (by simp)
      | ok ws =>
        rw [ht] at h
        cases h
        simp [ih ws ht, hp, Except.toOption]

theorem parseCell_error_ne_na (v : Value) (e : String) (h : parseCell v = .error e) :
    v ≠ .na := by
  intro hv
  rw [hv] at h
  exact absurd h (by simp [parseCell])

/- Per-stage structural lemmas: names, dtypes, row counts, rectangularity. -/

theorem names_dropDuplicates (t : Table) : (dropDuplicates t).names = t.names := rfl

theorem dtypes_dropDuplicates (t : Table) : (dropDuplicates t).dtypes = t.dtypes := rfl

theorem names_stripColumns (snap : List Dtype) (t : Table) :
    (stripColumns snap t).names = t.names := rfl

theorem dtypes_stripColumns (snap : List Dtype) (t : Table) :
    (stripColumns snap t).dtypes = t.dtypes := rfl

theorem names_fillNumeric (t : Table) : (fillNumeric t).names = t.names := rfl

theorem dtypes_fillNumeric (t : Table) : (fillNumeric t).dtypes = t.dtypes := rfl

theorem names_fillCategorical (snap : List Dtype) (t : Table) :
    (fillCategorical snap t).names = t.names := rfl

theorem dtypes_fillCategorical (snap : List Dtype) (t : Table) :
    (fillCategorical snap t).dtypes = t.dtypes := rfl

theorem names_coerceDates (t : Table) : (coerceDates t).names = t.names := rfl

theorem length_okMask (t : Table) : (okMask t).length = t.dtypes.length := by
  simp [okMask]

theorem length_medians (t : Table) : (medians t).length = t.dtypes.length := by
  simp [medians]

theorem length_modeFills (snap : List Dtype) (t : Table) :
    (modeFills snap t).length = snap.length := by
  simp [modeFills]

theorem dtypes_length_coerceDates (t : Table) :
    (coerceDates t).dtypes.length = t.dtypes.length := by
  simp [coerceDates, length_okMask]

theorem names_clean_data (df : Table) : (clean_data df).names = df.names := rfl

theorem rows_length_stripColumns (snap : List Dtype) (t : Table) :
    (stripColumns snap t).rows.length = t.rows.length := by
  simp [stripColumns]

theorem rows_length_fillNumeric (t : Table) :
    (fillNumeric t).rows.length = t.rows.length := by
  simp [fillNumeric]

theorem rows_length_fillCategorical (snap : List Dtype) (t : Table) :
    (fillCategorical snap t).rows.length = t.rows.length := by
  simp [fillCategorical]

theorem rows_length_coerceDates (t : Table) :
    (coerceDates t).rows.length = t.rows.length := by
  simp [coerceDates]

theorem rect_dropDuplicates (t : Table) (h : t.Rect) : (dropDuplicates t).Rect :=
  fun r hr => h r ((mem_dedupFirst _ _).mp hr)

theorem rect_stripColumns (t : Table) (snap : List Dtype) (h : t.Rect)
    (hs : snap.length = t.dtypes.length) : (stripColumns snap t).Rect := by
  intro r hr
  rw [dtypes_stripColumns]
  simp only [stripColumns, List.mem_map] at hr
  obtain ⟨r0, hr0, rfl⟩ := hr
  simp [List.length_zipWith, h r0 hr0, hs]

theorem rect_fillNumeric (t : Table) (h : t.Rect) : (fillNumeric t).Rect := by
  intro r hr
  rw [dtypes_fillNumeric]
  simp only [fillNumeric, List.mem_map] at hr
  obtain ⟨r0, hr0, rfl⟩ := hr
  simp [List.length_zipWith, h r0 hr0, length_medians]

theorem rect_fillCategorical (t : Table) (snap : List Dtype) (h : t.Rect)
    (hs : snap.length = t.dtypes.length) : (fillCategorical snap t).Rect := by
  intro r hr
  rw [dtypes_fillCategorical]
  simp only [fillCategorical, List.mem_map] at hr
  obtain ⟨r0, hr0, rfl⟩ := hr
  simp [List.length_zipWith, h r0 hr0, length_modeFills, hs]

theorem rect_coerceDates (t : Table) (h : t.Rect) : (coerceDates t).Rect := by
  intro r hr
  rw [dtypes_length_coerceDates]
  simp only [coerceDates, List.mem_map] at hr
  obtain ⟨r0, hr0, rfl⟩ := hr
  simp [List.length_zipWith, h r0 hr0, length_okMask]

theorem rect_clean_data (df : Table) (h : df.Rect) : (clean_data df).Rect := by
  unfold clean_data
  apply rect_coerceDates
  apply rect_fillCategorical _ _ _ rfl
  apply rect_fillNumeric
  apply rect_stripColumns _ _ _ rfl
  exact rect_dropDuplicates df h

/- Per-stage column lemmas. -/

theorem mem_colVals_dropDuplicates (t : Table) (j : Nat) (v : Value) :
    v ∈ colVals (dropDuplicates t) j ↔ v ∈ colVals t j := by
  simp only [colVals, dropDuplicates, List.mem_map]
  constructor
  · rintro ⟨r, hr, rfl⟩
    exact ⟨r, (mem_dedupFirst _ _).mp hr, rfl⟩
  · rintro ⟨r, hr, rfl⟩
    exact ⟨r, (mem_dedupFirst _ _).mpr hr, rfl⟩

theorem colVals_stripColumns (t : Table) (snap : List Dtype) (h : t.Rect)
    (hs : snap.length = t.dtypes.length) (j : Nat) (hj : j < t.dtypes.length) :
    colVals (stripColumns snap t) j
      = (colVals t j).map (stage2cell (snap.getD j .number)) := by
  unfold colVals stripColumns
  simp only [List.map_map]
  apply List.map_congr_left
  intro r hr
  simp only [Function.comp_apply]
  exact zipWith_getD stage2cell snap r j (by omega) (by rw [h r hr]; omega) .number .na .na

theorem medians_getD (t : Table) (j : Nat) (hj : j < t.dtypes.length) :
    (medians t).getD j .na = median (colVals t j) :=
  getD_range_map _ _ _ hj _

theorem colVals_fillNumeric (t : Table) (h : t.Rect) (j : Nat) (hj : j < t.dtypes.length) :
    colVals (fillNumeric t) j
      = (colVals t j).map (stage3cell (t.dtypes.getD j .number, median (colVals t j))) := by
  unfold colVals fillNumeric
  simp only [List.map_map]
  apply List.map_congr_left
  intro r hr
  simp only [Function.comp_apply]
  have hzl : j < (t.dtypes.zip (medians t)).length := by
    simp [List.length_zip, length_medians]
    omega
  have hzip : (t.dtypes.zip (medians t)).getD j (Dtype.number, Value.na)
      = (t.dtypes.getD j .number, (medians t).getD j .na) :=
    getD_zip t.dtypes (medians t) j hj (by rw [length_medians]; exact hj) .number .na
  rw [zipWith_getD stage3cell (t.dtypes.zip (medians t)) r j hzl (by rw [h r hr]; omega)
    (Dtype.number, Value.na) .na .na, hzip, medians_getD t j hj]
  rfl

theorem modeFills_getD (snap : List Dtype) (t : Table) (j : Nat) (hj : j < snap.length) :
    (modeFills snap t).getD j .na = modeFill t j :=
  getD_range_map _ _ _ hj _

theorem colVals_fillCategorical (t : Table) (snap : List Dtype) (h : t.Rect)
    (hs : snap.length = t.dtypes.length) (j : Nat) (hj : j < t.dtypes.length) :
    colVals (fillCategorical snap t) j
      = (colVals t j).map (stage4cell (snap.getD j .number, modeFill t j)) := by
  unfold colVals fillCategorical
  simp only [List.map_map]
  apply List.map_congr_left
  intro r hr
  simp only [Function.comp_apply]
  have hzl : j < (snap.zip (modeFills snap t)).length := by
    simp [List.length_zip, length_modeFills]
    omega
  have hzip : (snap.zip (modeFills snap t)).getD j (Dtype.number, Value.na)
      = (snap.getD j .number, (modeFills snap t).getD j .na) :=
    getD_zip snap (modeFills snap t) j (by omega) (by rw [length_modeFills]; omega) .number .na
  rw [zipWith_getD stage4cell (snap.zip (modeFills snap t)) r j hzl (by rw [h r hr]; omega)
    (Dtype.number, Value.na) .na .na, hzip, modeFills_getD snap t j (by omega)]

theorem okMask_getD (t : Table) (j : Nat) (hj : j < t.dtypes.length) :
    (okMask t).getD j false
      = (decide (t.dtypes.getD j .number = .object)
          && (to_datetime (colVals t j)).toOption.isSome) :=
  getD_range_map _ _ _ hj _

theorem colVals_coerceDates (t : Table) (h : t.Rect) (j : Nat) (hj : j < t.dtypes.length) :
    colVals (coerceDates t) j
      = (colVals t j).map (coerceCell ((okMask t).getD j false)) := by
  unfold colVals coerceDates
  simp only [List.map_map]
  apply List.map_congr_left
  intro r hr
  simp only [Function.comp_apply]
  exact zipWith_getD coerceCell (okMask t) r j (by rw [length_okMask]; omega)
    (by rw [h r hr]; omega) false .na .na

theorem dtypes_coerceDates_getD (t : Table) (j : Nat) (hj : j < t.dtypes.length) :
    (coerceDates t).dtypes.getD j .number
      = if (okMask t).getD j false then .datetime else t.dtypes.getD j .number := by
  have h2 : j < (okMask t).length := by rw [length_okMask]; exact hj
  exact zipWith_getD (fun d (o : Bool) => if o then Dtype.datetime else d) t.dtypes (okMask t)
    j hj h2 .number false .number

/- Cell-level simplifications. -/

theorem stage2cell_object (v : Value) : stage2cell .object v = stripCell v := rfl

theorem stage2cell_not_object (d : Dtype) (hd : d ≠ .object) (v : Value) :
    stage2cell d v = v := if_neg hd

theorem stage3cell_number (m v : Value) : stage3cell (.number, m) v = fillCell m v := rfl

theorem stage3cell_not_number (d : Dtype) (hd : d ≠ .number) (m v : Value) :
    stage3cell (d, m) v = v := if_neg hd

theorem stage4cell_object (m v : Value) : stage4cell (.object, m) v = fillCell m v := rfl

theorem stage4cell_not_object (d : Dtype) (hd : d ≠ .object) (m v : Value) :
    stage4cell (d, m) v = v := if_neg hd

theorem coerceCell_false (v : Value) : coerceCell false v = v := rfl

theorem fillCell_na (m : Value) : fillCell m .na = m := rfl

theorem fillCell_not_na (m v : Value) (h : v ≠ .na) : fillCell m v = v := if_neg h

theorem fillCell_na_fill (v : Value) : fillCell .na v = v := by
  by_cases h : v = .na
  · rw [h]; rfl
  · exact if_neg h

theorem map_eq_self {α : Type} (l : List α) (f : α → α) (h : ∀ x ∈ l, f x = x) :
    l.map f = l := by
  induction l with
  | nil => rfl
  | cons a l ih =>
    rw [List.map_cons, h a (List.mem_cons_self _ _),
      ih (fun x hx => h x (List.mem_cons_of_mem _ hx))]

/- Stage identity lemmas: conditions under which a stage leaves the table unchanged. -/

theorem dropDuplicates_id (t : Table) (h : t.rows.Nodup) : dropDuplicates t = t := by
  unfold dropDuplicates
  rw [dedupFirst_eq_self h]

theorem stripColumns_id (t : Table) (h : t.Rect)
    (hcells : ∀ j, j < t.dtypes.length → t.dtypes.getD j .number = .object →
      ∀ v ∈ colVals t j, stripCell v = v) :
    stripColumns t.dtypes t = t := by
  unfold stripColumns
  have hrows : t.rows.map (fun r => List.zipWith stage2cell t.dtypes r) = t.rows := by
    apply map_eq_self
    intro r hr
    apply List.ext_getElem
    · simp [List.length_zipWith, h r hr]
    · intro i h1 h2
      rw [List.getElem_zipWith]
      have hi : i < t.dtypes.length := by
        simp only [List.length_zipWith] at h1
        omega
      rw [← List.getD_eq_getElem t.dtypes .number hi, ← List.getD_eq_getElem r .na h2]
      by_cases hd : t.dtypes.getD i .number = .object
      · rw [hd, stage2cell_object]
        exact hcells i hi hd _ (List.mem_map.mpr ⟨r, hr, rfl⟩)
      · exact stage2cell_not_object _ hd _
  rw [hrows]

theorem fillNumeric_id (t : Table) (h : t.Rect)
    (hmed : ∀ j, j < t.dtypes.length → t.dtypes.getD j .number = .number →
      Value.na ∈ colVals t j → median (colVals t j) = .na) :
    fillNumeric t = t := by
  unfold fillNumeric
  have hrows : t.rows.map (fun r => List.zipWith stage3cell (t.dtypes.zip (medians t)) r)
      = t.rows := by
    apply map_eq_self
    intro r hr
    apply List.ext_getElem
    · simp [List.length_zipWith, List.length_zip, length_medians, h r hr]
    · intro i h1 h2
      rw [List.getElem_zipWith]
      have hi : i < t.dtypes.length := by
        simp only [List.length_zipWith, List.length_zip, length_medians] at h1
        omega
      have hzi : i < (t.dtypes.zip (medians t)).length := by
        simp [List.length_zip, length_medians]
        omega
      rw [← List.getD_eq_getElem _ (Dtype.number, Value.na) hzi,
        getD_zip t.dtypes (medians t) i hi (by rw [length_medians]; exact hi) .number .na,
        medians_getD t i hi, ← List.getD_eq_getElem r .na h2]
      by_cases hd : t.dtypes.getD i .number = .number
      · rw [hd, stage3cell_number]
        by_cases hv : r.getD i .na = .na
        · have hna : Value.na ∈ colVals t i := by
            rw [← hv]
            exact List.mem_map.mpr ⟨r, hr, rfl⟩
          rw [hv, hmed i hi hd hna]
          rfl
        · exact fillCell_not_na _ _ hv
      · exact stage3cell_not_number _ hd _ _
  rw [hrows]

theorem fillCategorical_id (t : Table) (snap : List Dtype) (h : t.Rect)
    (hs : snap.length = t.dtypes.length)
    (hcells : ∀ j, j < t.dtypes.length → snap.getD j .number = .object →
      Value.na ∉ colVals t j) :
    fillCategorical snap t = t := by
  unfold fillCategorical
  have hrows : t.rows.map (fun r => List.zipWith stage4cell (snap.zip (modeFills snap t)) r)
      = t.rows := by
    apply map_eq_self
    intro r hr
    apply List.ext_getElem
    · simp [List.length_zipWith, List.length_zip, length_modeFills, h r hr, hs]
    · intro i h1 h2
      rw [List.getElem_zipWith]
      have hi : i < t.dtypes.length := by
        simp only [List.length_zipWith, List.length_zip, length_modeFills] at h1
        omega
      have hzi : i < (snap.zip (modeFills snap t)).length := by
        simp [List.length_zip, length_modeFills]
        omega
      rw [← List.getD_eq_getElem _ (Dtype.number, Value.na) hzi,
        getD_zip snap (modeFills snap t) i (by omega) (by rw [length_modeFills]; omega)
          .number .na,
        modeFills_getD snap t i (by omega), ← List.getD_eq_getElem r .na h2]
      by_cases hd : snap.getD i .number = .object
      · rw [hd, stage4cell_object]
        apply fillCell_not_na
        intro hv
        exact hcells i hi hd (by rw [← hv]; exact List.mem_map.mpr ⟨r, hr, rfl⟩)
      · exact stage4cell_not_object _ hd _ _
  rw [hrows]

theorem okMask_all_false (t : Table)
    (hno : ∀ j, j < t.dtypes.length → t.dtypes.getD j .number = .object →
      (to_datetime (colVals t j)).toOption = none) :
    ∀ i, i < t.dtypes.length → (okMask t).getD i false = false := by
  intro i hi
  rw [okMask_getD t i hi]
  by_cases hd : t.dtypes.getD i .number = .object
  · rw [hno i hi hd]
    simp
  · rw [decide_eq_false hd]
    rfl

theorem coerceDates_id (t : Table) (h : t.Rect)
    (hno : ∀ j, j < t.dtypes.length → t.dtypes.getD j .number = .object →
      (to_datetime (colVals t j)).toOption = none) :
    coerceDates t = t := by
  have hmask := okMask_all_false t hno
  apply Table.ext
  · rfl
  · apply List.ext_getElem
    · simp [dtypes_length_coerceDates]
    · intro i h1 h2
      show (List.zipWith (fun d (o : Bool) => if o then Dtype.datetime else d)
        t.dtypes (okMask t))[i] = t.dtypes[i]
      rw [List.getElem_zipWith]
      have hi : i < t.dtypes.length := h2
      have hoi : i < (okMask t).length := by rw [length_okMask]; exact hi
      have : (okMask t)[i] = false := by
        rw [← List.getD_eq_getElem (okMask t) false hoi]
        exact hmask i hi
      rw [this]
      simp
  · show t.rows.map (fun r => List.zipWith coerceCell (okMask t) r) = t.rows
    apply map_eq_self
    intro r hr
    apply List.ext_getElem
    · simp [List.length_zipWith, length_okMask, h r hr]
    · intro i h1 h2
      rw [List.getElem_zipWith]
      have hi : i < t.dtypes.length := by rw [← h r hr]; exact h2
      have hoi : i < (okMask t).length := by rw [length_okMask]; exact hi
      have hfi : (okMask t)[i] = false := by
        rw [← List.getD_eq_getElem (okMask t) false hoi]
        exact hmask i hi
      rw [hfi]
      rfl

/- Characterization of clean_data output columns. -/

theorem mem_colStrs (vs : List Value) (s : String) : s ∈ colStrs vs ↔ Value.str s ∈ vs := by
  unfold colStrs
  rw [List.mem_filterMap]
  constructor
  · rintro ⟨v, hv, he⟩
    cases v with
    | na => simp at he
    | num q => simp at he
    | date n => simp at he
    | str s2 =>
      simp only [Option.some.injEq] at he
      rw [← he]
      exact hv
  · intro hv
    exact ⟨.str s, hv, rfl⟩

theorem stripCell_stripped (u : Value) (s : String) (h : stripCell u = .str s) :
    pyStrip s = s := by
  cases u with
  | na => simp [stripCell] at h
  | num q => simp [stripCell] at h
  | date n => simp [stripCell] at h
  | str s2 =>
    simp only [stripCell, Value.str.injEq] at h
    rw [← h, pyStrip_idem]

theorem stripCell_cases (u : Value) :
    stripCell u = .na ∨ ∃ s, stripCell u = .str s ∧ pyStrip s = s := by
  cases u with
  | na => exact Or.inl rfl
  | num q => exact Or.inl rfl
  | date n => exact Or.inl rfl
  | str s => exact Or.inr ⟨pyStrip s, rfl, pyStrip_idem s⟩

theorem dtypes_length_clean_data (df : Table) :
    (clean_data df).dtypes.length = df.dtypes.length :=
  dtypes_length_coerceDates _

/-- Cells of an object column at the end of stage 4: stripped strings only
(whitespace-trimmed values, or the mode / "Unknown" fill, itself stripped). -/
theorem stage4_object_cells (t : Table) (h : t.Rect) (j : Nat) (hj : j < t.dtypes.length)
    (hobj : t.dtypes.getD j .number = .object) :
    ∀ v ∈ colVals (fillCategorical (dropDuplicates t).dtypes
      (fillNumeric (stripColumns (dropDuplicates t).dtypes (dropDuplicates t)))) j,
      ∃ s, v = .str s ∧ pyStrip s = s := by
  have h1 : (dropDuplicates t).Rect := rect_dropDuplicates t h
  have h2 : (stripColumns (dropDuplicates t).dtypes (dropDuplicates t)).Rect :=
    rect_stripColumns _ _ h1 rfl
  have h3 : (fillNumeric (stripColumns (dropDuplicates t).dtypes (dropDuplicates t))).Rect :=
    rect_fillNumeric _ h2
  have hcol2 : colVals (stripColumns (dropDuplicates t).dtypes (dropDuplicates t)) j
      = (colVals (dropDuplicates t) j).map stripCell := by
    rw [colVals_stripColumns (dropDuplicates t) (dropDuplicates t).dtypes h1 rfl j hj]
    apply List.map_congr_left
    intro v _
    rw [show (dropDuplicates t).dtypes.getD j .number = Dtype.object from hobj, stage2cell_object]
  have hcol3 : colVals (fillNumeric (stripColumns (dropDuplicates t).dtypes (dropDuplicates t))) j
      = colVals (stripColumns (dropDuplicates t).dtypes (dropDuplicates t)) j := by
    rw [colVals_fillNumeric _ h2 j hj]
    apply map_eq_self
    intro v _
    exact stage3cell_not_number _ (by rw [show (stripColumns (dropDuplicates t).dtypes
      (dropDuplicates t)).dtypes.getD j .number = Dtype.object from hobj]; decide) _ _
  have hcol4 : colVals (fillCategorical (dropDuplicates t).dtypes
        (fillNumeric (stripColumns (dropDuplicates t).dtypes (dropDuplicates t)))) j
      = (colVals (fillNumeric (stripColumns (dropDuplicates t).dtypes (dropDuplicates t))) j).map
          (fillCell (modeFill (fillNumeric (stripColumns (dropDuplicates t).dtypes
            (dropDuplicates t))) j)) := by
    rw [colVals_fillCategorical _ (dropDuplicates t).dtypes h3 rfl j hj]
    apply List.map_congr_left
    intro v _
    rw [show (dropDuplicates t).dtypes.getD j .number = Dtype.object from hobj, stage4cell_object]
  have hfill : ∃ f, modeFill (fillNumeric (stripColumns (dropDuplicates t).dtypes
      (dropDuplicates t))) j = .str f ∧ pyStrip f = f := by
    unfold modeFill
    cases hms : modeStr (colStrs (colVals (fillNumeric (stripColumns (dropDuplicates t).dtypes
        (dropDuplicates t))) j)) with
    | none => exact ⟨"Unknown", rfl, pyStrip_unknown⟩
    | some m =>
      refine ⟨m, rfl, ?_⟩
      have hm2 : Value.str m ∈ colVals (fillNumeric (stripColumns (dropDuplicates t).dtypes
          (dropDuplicates t))) j := (mem_colStrs _ _).mp (modeStr_mem _ _ hms)
      rw [hcol3, hcol2] at hm2
      obtain ⟨u, _, hsu⟩ := List.mem_map.mp hm2
      exact stripCell_stripped u m hsu
  intro v hv
  rw [hcol4, hcol3, hcol2] at hv
  obtain ⟨w, hw, rfl⟩ := List.mem_map.mp hv
  obtain ⟨u, _, rfl⟩ := List.mem_map.mp hw
  obtain ⟨f, hf, hfs⟩ := hfill
  rcases stripCell_cases u with hna | ⟨s, hs, hss⟩
  · rw [hna, fillCell_na, hf]
    exact ⟨f, rfl, hfs⟩
  · rw [hs, fillCell_not_na _ _ (by simp)]
    exact ⟨s, rfl, hss⟩

/-- An object-classified input column has no missing values in clean_data's
output: stage 4 filled them all and stage 5 only maps strings to dates. -/
theorem clean_object_no_na (t : Table) (h : t.Rect) (j : Nat) (hj : j < t.dtypes.length)
    (hobj : t.dtypes.getD j .number = .object) :
    Value.na ∉ colVals (clean_data t) j := by
  have h1 : (dropDuplicates t).Rect := rect_dropDuplicates t h
  have h2 : (stripColumns (dropDuplicates t).dtypes (dropDuplicates t)).Rect :=
    rect_stripColumns _ _ h1 rfl
  have h3 : (fillNumeric (stripColumns (dropDuplicates t).dtypes (dropDuplicates t))).Rect :=
    rect_fillNumeric _ h2
  have h4 : (fillCategorical (dropDuplicates t).dtypes
      (fillNumeric (stripColumns (dropDuplicates t).dtypes (dropDuplicates t)))).Rect :=
    rect_fillCategorical _ _ h3 rfl
  have hcells := stage4_object_cells t h j hj hobj
  have hclean : colVals (clean_data t) j
      = (colVals (fillCategorical (dropDuplicates t).dtypes
          (fillNumeric (stripColumns (dropDuplicates t).dtypes (dropDuplicates t)))) j).map
        (coerceCell ((okMask (fillCategorical (dropDuplicates t).dtypes
          (fillNumeric (stripColumns (dropDuplicates t).dtypes (dropDuplicates t))))).getD
            j false)) :=
    colVals_coerceDates _ h4 j hj
  intro hna
  rw [hclean] at hna
  obtain ⟨v, hv, he⟩ := List.mem_map.mp hna
  obtain ⟨s, rfl, _⟩ := hcells v hv
  cases hmask : (okMask (fillCategorical (dropDuplicates t).dtypes
      (fillNumeric (stripColumns (dropDuplicates t).dtypes (dropDuplicates t))))).getD j false with
  | false =>
    rw [hmask] at he
    exact absurd he (by simp [coerceCell])
  | true =>
    rw [hmask] at he
    cases hp : parseDate s with
    | none => simp [coerceCell, parseCell, hp, Except.toOption] at he
    | some n => simp [coerceCell, parseCell, hp, Except.toOption] at he

/-- Object columns of clean_data output: they hold only stripped strings, and
the attempted date coercion on them failed (else they would be datetime). -/
theorem clean_output_object (t : Table) (h : t.Rect) (j : Nat) (hj : j < t.dtypes.length)
    (hobj : (clean_data t).dtypes.getD j .number = .object) :
    (∀ v ∈ colVals (clean_data t) j, ∃ s, v = .str s ∧ pyStrip s = s)
    ∧ (to_datetime (colVals (clean_data t) j)).toOption = none := by
  have h1 : (dropDuplicates t).Rect := rect_dropDuplicates t h
  have h2 : (stripColumns (dropDuplicates t).dtypes (dropDuplicates t)).Rect :=
    rect_stripColumns _ _ h1 rfl
  have h3 : (fillNumeric (stripColumns (dropDuplicates t).dtypes (dropDuplicates t))).Rect :=
    rect_fillNumeric _ h2
  have h4 : (fillCategorical (dropDuplicates t).dtypes
      (fillNumeric (stripColumns (dropDuplicates t).dtypes (dropDuplicates t)))).Rect :=
    rect_fillCategorical _ _ h3 rfl
  have hdty := dtypes_coerceDates_getD (fillCategorical (dropDuplicates t).dtypes
    (fillNumeric (stripColumns (dropDuplicates t).dtypes (dropDuplicates t)))) j hj
  have hobj2 : (coerceDates (fillCategorical (dropDuplicates t).dtypes
      (fillNumeric (stripColumns (dropDuplicates t).dtypes
        (dropDuplicates t))))).dtypes.getD j .number = .object := hobj
  rw [hdty] at hobj2
  have hmask : (okMask (fillCategorical (dropDuplicates t).dtypes
      (fillNumeric (stripColumns (dropDuplicates t).dtypes
        (dropDuplicates t))))).getD j false = false := by
    cases hb : (okMask (fillCategorical (dropDuplicates t).dtypes
        (fillNumeric (stripColumns (dropDuplicates t).dtypes
          (dropDuplicates t))))).getD j false with
    | false => rfl
    | true =>
      rw [hb, if_pos rfl] at hobj2
      exact absurd hobj2 (by decide)
  rw [hmask] at hobj2
  rw [if_neg (by simp)] at hobj2
  have hcv : colVals (clean_data t) j
      = colVals (fillCategorical (dropDuplicates t).dtypes
          (fillNumeric (stripColumns (dropDuplicates t).dtypes (dropDuplicates t)))) j := by
    have := colVals_coerceDates (fillCategorical (dropDuplicates t).dtypes
      (fillNumeric (stripColumns (dropDuplicates t).dtypes (dropDuplicates t)))) h4 j hj
    rw [hmask] at this
    rw [show colVals (clean_data t) j = colVals (coerceDates (fillCategorical
      (dropDuplicates t).dtypes (fillNumeric (stripColumns (dropDuplicates t).dtypes
        (dropDuplicates t))))) j from rfl, this]
    exact map_eq_self _ _ (fun v _ => coerceCell_false v)
  have hmge := okMask_getD (fillCategorical (dropDuplicates t).dtypes
    (fillNumeric (stripColumns (dropDuplicates t).dtypes (dropDuplicates t)))) j hj
  rw [hmask, hobj2] at hmge
  rw [show (decide (Dtype.object = Dtype.object)) = true from by decide, Bool.true_and] at hmge
  constructor
  · intro v hv
    rw [hcv] at hv
    exact stage4_object_cells t h j hj hobj2 v hv
  · rw [hcv]
    cases ho : (to_datetime (colVals (fillCategorical (dropDuplicates t).dtypes
        (fillNumeric (stripColumns (dropDuplicates t).dtypes (dropDuplicates t)))) j)).toOption
      with
    | none => rfl
    | some ds =>
      rw [ho] at hmge
      simp at hmge

/-- Numeric columns of clean_data output: if a missing value is still present
then the whole column's median is still NaN (the all-missing degenerate case). -/
theorem clean_output_number (t : Table) (h : t.Rect) (j : Nat) (hj : j < t.dtypes.length)
    (hnum : (clean_data t).dtypes.getD j .number = .number) :
    Value.na ∈ colVals (clean_data t) j → median (colVals (clean_data t) j) = .na := by
  have h1 : (dropDuplicates t).Rect := rect_dropDuplicates t h
  have h2 : (stripColumns (dropDuplicates t).dtypes (dropDuplicates t)).Rect :=
    rect_stripColumns _ _ h1 rfl
  have h3 : (fillNumeric (stripColumns (dropDuplicates t).dtypes (dropDuplicates t))).Rect :=
    rect_fillNumeric _ h2
  have h4 : (fillCategorical (dropDuplicates t).dtypes
      (fillNumeric (stripColumns (dropDuplicates t).dtypes (dropDuplicates t)))).Rect :=
    rect_fillCategorical _ _ h3 rfl
  have hdty := dtypes_coerceDates_getD (fillCategorical (dropDuplicates t).dtypes
    (fillNumeric (stripColumns (dropDuplicates t).dtypes (dropDuplicates t)))) j hj
  have hnum2 : (coerceDates (fillCategorical (dropDuplicates t).dtypes
      (fillNumeric (stripColumns (dropDuplicates t).dtypes
        (dropDuplicates t))))).dtypes.getD j .number = .number := hnum
  rw [hdty] at hnum2
  have hmask : (okMask (fillCategorical (dropDuplicates t).dtypes
      (fillNumeric (stripColumns (dropDuplicates t).dtypes
        (dropDuplicates t))))).getD j false = false := by
    cases hb : (okMask (fillCategorical (dropDuplicates t).dtypes
        (fillNumeric (stripColumns (dropDuplicates t).dtypes
          (dropDuplicates t))))).getD j false with
    | false => rfl
    | true =>
      rw [hb, if_pos rfl] at hnum2
      exact absurd hnum2 (by decide)
  rw [hmask, if_neg (by simp)] at hnum2
  have hcv : colVals (clean_data t) j
      = colVals (fillCategorical (dropDuplicates t).dtypes
          (fillNumeric (stripColumns (dropDuplicates t).dtypes (dropDuplicates t)))) j := by
    have := colVals_coerceDates (fillCategorical (dropDuplicates t).dtypes
      (fillNumeric (stripColumns (dropDuplicates t).dtypes (dropDuplicates t)))) h4 j hj
    rw [hmask] at this
    rw [show colVals (clean_data t) j = colVals (coerceDates (fillCategorical
      (dropDuplicates t).dtypes (fillNumeric (stripColumns (dropDuplicates t).dtypes
        (dropDuplicates t))))) j from rfl, this]
    exact map_eq_self _ _ (fun v _ => coerceCell_false v)
  have hcv4 : colVals (fillCategorical (dropDuplicates t).dtypes
        (fillNumeric (stripColumns (dropDuplicates t).dtypes (dropDuplicates t)))) j
      = colVals (fillNumeric (stripColumns (dropDuplicates t).dtypes (dropDuplicates t))) j := by
    rw [colVals_fillCategorical _ (dropDuplicates t).dtypes h3 rfl j hj]
    apply map_eq_self
    intro v _
    exact stage4cell_not_object _ (by
      rw [show (dropDuplicates t).dtypes.getD j .number = Dtype.number from hnum2]
      decide) _ _
  have hcv3 : colVals (fillNumeric (stripColumns (dropDuplicates t).dtypes
        (dropDuplicates t))) j
      = (colVals (stripColumns (dropDuplicates t).dtypes (dropDuplicates t)) j).map
          (fillCell (median (colVals (stripColumns (dropDuplicates t).dtypes
            (dropDuplicates t)) j))) := by
    rw [colVals_fillNumeric _ h2 j hj]
    apply List.map_congr_left
    intro v _
    rw [show (stripColumns (dropDuplicates t).dtypes
      (dropDuplicates t)).dtypes.getD j .number = Dtype.number from hnum2, stage3cell_number]
  intro hna
  rw [hcv, hcv4, hcv3]
  by_cases hmed : median (colVals (stripColumns (dropDuplicates t).dtypes
      (dropDuplicates t)) j) = .na
  · rw [hmed]
    rw [map_eq_self _ _ (fun v _ => fillCell_na_fill v)]
    exact hmed
  · exfalso
    rw [hcv, hcv4, hcv3] at hna
    obtain ⟨u, _, he⟩ := List.mem_map.mp hna
    by_cases hu : u = .na
    · rw [hu, fillCell_na] at he
      exact hmed he
    · rw [fillCell_not_na _ _ hu] at he
      exact hu he

/-- Core of the corrected idempotence claim: a second run of the pipeline is
the identity whenever the first run's output has no duplicate rows. -/
theorem clean_data_idem_of_nodup (t : Table) (h : t.Rect)
    (hnd : (clean_data t).rows.Nodup) :
    clean_data (clean_data t) = clean_data t := by
  have hrect : (clean_data t).Rect := rect_clean_data t h
  have hlen : (clean_data t).dtypes.length = t.dtypes.length := dtypes_length_clean_data t
  have hdd : dropDuplicates (clean_data t) = clean_data t := dropDuplicates_id _ hnd
  show coerceDates (fillCategorical (dropDuplicates (clean_data t)).dtypes
    (fillNumeric (stripColumns (dropDuplicates (clean_data t)).dtypes
      (dropDuplicates (clean_data t))))) = clean_data t
  rw [hdd]
  have hstrip : stripColumns (clean_data t).dtypes (clean_data t) = clean_data t := by
    apply stripColumns_id _ hrect
    intro j hj hobj v hv
    obtain ⟨s, rfl, hss⟩ :=
      (clean_output_object t h j (by omega) hobj).1 v hv
    simp [stripCell, hss]
  rw [hstrip]
  have hfn : fillNumeric (clean_data t) = clean_data t := by
    apply fillNumeric_id _ hrect
    intro j hj hnum hna
    exact clean_output_number t h j (by omega) hnum hna
  rw [hfn]
  have hfc : fillCategorical (clean_data t).dtypes (clean_data t) = clean_data t := by
    apply fillCategorical_id _ _ hrect rfl
    intro j hj hobj hna
    obtain ⟨s, hs, _⟩ := (clean_output_object t h j (by omega) hobj).1 _ hna
    cases hs
  rw [hfc]
  apply coerceDates_id _ hrect
  intro j hj hobj
  exact (clean_output_object t h j (by omega) hobj).2

/-- Numeric columns pass through stages 2, 4 and 5 untouched; the whole
pipeline acts on them as stage 3's median fill after deduplication. -/
theorem clean_number_col (t : Table) (h : t.Rect) (j : Nat) (hj : j < t.dtypes.length)
    (hnum : t.dtypes.getD j .number = .number) :
    colVals (clean_data t) j
      = (colVals (dropDuplicates t) j).map
          (fillCell (median (colVals (dropDuplicates t) j))) := by
  have h1 : (dropDuplicates t).Rect := rect_dropDuplicates t h
  have h2 : (stripColumns (dropDuplicates t).dtypes (dropDuplicates t)).Rect :=
    rect_stripColumns _ _ h1 rfl
  have h3 : (fillNumeric (stripColumns (dropDuplicates t).dtypes (dropDuplicates t))).Rect :=
    rect_fillNumeric _ h2
  have h4 : (fillCategorical (dropDuplicates t).dtypes
      (fillNumeric (stripColumns (dropDuplicates t).dtypes (dropDuplicates t)))).Rect :=
    rect_fillCategorical _ _ h3 rfl
  have hobj : ¬ t.dtypes.getD j .number = .object := by
    rw [hnum]
    decide
  have hcol2 : colVals (stripColumns (dropDuplicates t).dtypes (dropDuplicates t)) j
      = colVals (dropDuplicates t) j := by
    rw [colVals_stripColumns (dropDuplicates t) (dropDuplicates t).dtypes h1 rfl j hj]
    exact map_eq_self _ _ (fun v _ => stage2cell_not_object _ hobj v)
  have hcol3 : colVals (fillNumeric (stripColumns (dropDuplicates t).dtypes
        (dropDuplicates t))) j
      = (colVals (dropDuplicates t) j).map
          (fillCell (median (colVals (dropDuplicates t) j))) := by
    rw [colVals_fillNumeric _ h2 j hj, hcol2]
    apply List.map_congr_left
    intro v _
    rw [show (stripColumns (dropDuplicates t).dtypes
      (dropDuplicates t)).dtypes.getD j .number = Dtype.number from hnum, stage3cell_number]
  have hcol4 : colVals (fillCategorical (dropDuplicates t).dtypes
        (fillNumeric (stripColumns (dropDuplicates t).dtypes (dropDuplicates t)))) j
      = colVals (fillNumeric (stripColumns (dropDuplicates t).dtypes (dropDuplicates t))) j := by
    rw [colVals_fillCategorical _ (dropDuplicates t).dtypes h3 rfl j hj]
    exact map_eq_self _ _ (fun v _ => stage4cell_not_object _ hobj _ v)
  have hobj4 : ¬ (fillCategorical (dropDuplicates t).dtypes
      (fillNumeric (stripColumns (dropDuplicates t).dtypes
        (dropDuplicates t)))).dtypes.getD j .number = .object := hobj
  have hmask : (okMask (fillCategorical (dropDuplicates t).dtypes
      (fillNumeric (stripColumns (dropDuplicates t).dtypes
        (dropDuplicates t))))).getD j false = false := by
    rw [okMask_getD (fillCategorical (dropDuplicates t).dtypes
      (fillNumeric (stripColumns (dropDuplicates t).dtypes (dropDuplicates t)))) j hj,
      decide_eq_false hobj4]
    rfl
  have hcv : colVals (clean_data t) j
      = colVals (fillCategorical (dropDuplicates t).dtypes
          (fillNumeric (stripColumns (dropDuplicates t).dtypes (dropDuplicates t)))) j := by
    have := colVals_coerceDates (fillCategorical (dropDuplicates t).dtypes
      (fillNumeric (stripColumns (dropDuplicates t).dtypes (dropDuplicates t)))) h4 j hj
    rw [hmask] at this
    rw [show colVals (clean_data t) j = colVals (coerceDates (fillCategorical
      (dropDuplicates t).dtypes (fillNumeric (stripColumns (dropDuplicates t).dtypes
        (dropDuplicates t))))) j from rfl, this]
    exact map_eq_self _ _ (fun v _ => coerceCell_false v)
  rw [hcv, hcol4, hcol3]

/-- A well-typed numeric column with at least one number is fully filled. -/
theorem clean_number_no_na (t : Table) (h : t.Rect) (j : Nat) (hj : j < t.dtypes.length)
    (hnum : t.dtypes.getD j .number = .number)
    (hwt : ∀ v ∈ colVals t j, v.isNumOrNa = true)
    (hex : ∃ v ∈ colVals t j, v ≠ .na) :
    Value.na ∉ colVals (clean_data t) j := by
  obtain ⟨v, hv, hvne⟩ := hex
  have hq : ∃ q, v = .num q := by
    cases v with
    | na => exact absurd rfl hvne
    | str s => exact absurd (hwt _ hv) (by simp [Value.isNumOrNa])
    | date n => exact absurd (hwt _ hv) (by simp [Value.isNumOrNa])
    | num q => exact ⟨q, rfl⟩
  obtain ⟨q, rfl⟩ := hq
  have hv1 : Value.num q ∈ colVals (dropDuplicates t) j :=
    (mem_colVals_dropDuplicates t j _).mpr hv
  have hmed : median (colVals (dropDuplicates t) j) ≠ .na := by
    rw [Ne, median_eq_na_iff]
    intro hnil
    have : (q : Rat) ∈ colNums (colVals (dropDuplicates t) j) :=
      List.mem_filterMap.mpr ⟨.num q, hv1, rfl⟩
    rw [hnil] at this
    exact absurd this (List.not_mem_nil q)
  rw [clean_number_col t h j hj hnum]
  intro hna
  obtain ⟨u, _, he⟩ := List.mem_map.mp hna
  by_cases hu : u = .na
  · rw [hu, fillCell_na] at he
    exact hmed he
  · rw [fillCell_not_na _ _ hu] at he
    exact hu he

theorem rows_length_clean_data (df : Table) :
    (clean_data df).rows.length = (dedupFirst df.rows).length := by
  show (coerceDates _).rows.length = _
  rw [rows_length_coerceDates, rows_length_fillCategorical, rows_length_fillNumeric,
    rows_length_stripColumns]
  rfl

/- The exception-explicit pipeline always succeeds and agrees with clean_data. -/

theorem mapME_ok {α : Type} (f : α → Except String Bool) (g : α → Bool) (l : List α)
    (h : ∀ a ∈ l, f a = .ok (g a)) : mapME f l = .ok (l.map g) := by
  induction l with
  | nil => rfl
  | cons a l ih =>
    unfold mapME
    rw [h a (List.mem_cons_self _ _), ih (fun x hx => h x (List.mem_cons_of_mem _ hx))]
    rfl

theorem okColE_eq (t : Table) (j : Nat) :
    okColE t j = .ok (decide (t.dtypes.getD j .number = .object)
      && (to_datetime (colVals t j)).toOption.isSome) := by
  unfold okColE
  by_cases hd : t.dtypes.getD j .number = .object
  · rw [if_pos hd, decide_eq_true hd, Bool.true_and]
    cases ht : to_datetime (colVals t j) with
    | ok ds => simp [catchE, Except.map, ht, Except.toOption]
    | error e => simp [catchE, Except.map, ht, Except.toOption]
  · rw [if_neg hd, decide_eq_false hd, Bool.false_and]

theorem clean_data_exn_ok (df : Table) : clean_data_exn df = .ok (clean_data df) := by
  have hm : mapME (okColE (fillCategorical (dropDuplicates df).dtypes
        (fillNumeric (stripColumns (dropDuplicates df).dtypes (dropDuplicates df)))))
      (List.range (fillCategorical (dropDuplicates df).dtypes
        (fillNumeric (stripColumns (dropDuplicates df).dtypes
          (dropDuplicates df)))).dtypes.length)
      = .ok (okMask (fillCategorical (dropDuplicates df).dtypes
          (fillNumeric (stripColumns (dropDuplicates df).dtypes (dropDuplicates df))))) := by
    apply mapME_ok
    intro j _
    exact okColE_eq _ j
  simp only [clean_data_exn]
  rw [hm]
  rfl

/- Store lemmas for the reference-passing pipeline. -/

theorem getD_append_left {α : Type} (l1 l2 : List α) (i : Nat) (h : i < l1.length) (d : α) :
    (l1 ++ l2).getD i d = l1.getD i d := by
  induction l1 generalizing i with
  | nil => simp at h
  | cons a l ih =>
    cases i with
    | zero => rfl
    | succ n =>
      show (l ++ l2).getD n d = l.getD n d
      exact ih n (by simpa using h)

theorem getD_concat_length {α : Type} (l : List α) (x : α) (d : α) :
    (l ++ [x]).getD l.length d = x := by
  induction l with
  | nil => rfl
  | cons a l ih =>
    show (l ++ [x]).getD l.length d = x
    exact ih

theorem getD_set_self {α : Type} (l : List α) (i : Nat) (a : α) (d : α) (h : i < l.length) :
    (l.set i a).getD i d = a := by
  induction l generalizing i with
  | nil => simp at h
  | cons x t ih =>
    cases i with
    | zero => rfl
    | succ n =>
      show (t.set n a).getD n d = a
      exact ih n (by simpa using h)

theorem getD_set_ne {α : Type} (l : List α) (i j : Nat) (a : α) (d : α) (h : i ≠ j) :
    (l.set i a).getD j d = l.getD j d := by
  induction l generalizing i j with
  | nil => rfl
  | cons x t ih =>
    cases i with
    | zero =>
      cases j with
      | zero => exact absurd rfl h
      | succ m => rfl
    | succ n =>
      cases j with
      | zero => rfl
      | succ m =>
        show (t.set n a).getD m d = t.getD m d
        exact ih n m (by omega)

/-- What the reference-passing pipeline does to the store: the caller's table
object at r is left untouched; the result is a fresh object at a new index. -/
theorem clean_data_ref_spec (st : Store) (r : Nat) (h : r < st.length) :
    ((clean_data_ref st r).1.getD r emptyTable = st.getD r emptyTable)
    ∧ ((clean_data_ref st r).1.getD (clean_data_ref st r).2 emptyTable
        = clean_data (st.getD r emptyTable))
    ∧ (clean_data_ref st r).2 = st.length := by
  have hne : st.length ≠ r := by omega
  have e1 : (st ++ [dropDuplicates (st.getD r emptyTable)]).getD st.length emptyTable
      = dropDuplicates (st.getD r emptyTable) := getD_concat_length st _ _
  simp only [clean_data_ref]
  rw [e1]
  have hl1 : st.length < (st ++ [dropDuplicates (st.getD r emptyTable)]).length := by
    simp
  rw [getD_set_self _ _ _ _ hl1]
  rw [getD_set_self _ _ _ _ (by simp)]
  rw [getD_set_self _ _ _ _ (by simp)]
  refine ⟨?_, ?_, trivial⟩
  · rw [getD_set_ne _ _ _ _ _ hne, getD_set_ne _ _ _ _ _ hne, getD_set_ne _ _ _ _ _ hne,
      getD_set_ne _ _ _ _ _ hne, getD_append_left st _ r h]
  · rw [getD_set_self _ _ _ _ (by simp)]
    rfl

/- Claim theorems. -/

/-- C1, counterexample: clean_data is not idempotent.  Cleaning the table with
one text column [" x"; "x"] strips both cells to "x", so the first pass ends
with two identical rows, and a second pass deduplicates them: the two outputs
differ. -/
theorem c1_counterexample : clean_data (clean_data exTstrip) ≠ clean_data exTstrip := by
  decide

/-- C1, amended: the pipeline run twice agrees with the pipeline run once for
every rectangular table whose cleaned output has no duplicate rows.  (In
general the second pass differs exactly by removing the duplicate rows that
stage 2-4 value mutations created, which the counterexample exhibits.) -/
theorem c1_idem_of_nodup (t : Table) (h : t.Rect) (hnd : (clean_data t).rows.Nodup) :
    clean_data (clean_data t) = clean_data t :=
  clean_data_idem_of_nodup t h hnd

/-- C1 witness: a concrete table on which the amended idempotence applies. -/
theorem c1_idem_witness : clean_data (clean_data exTone) = clean_data exTone :=
  c1_idem_of_nodup exTone (by decide) (by decide)

/-- C2: all-or-nothing date coercion.  For an object column at stage 5 entry,
to_datetime fails exactly when some non-missing cell fails to parse; if it
succeeds the whole column is replaced by the parsed values and the declared
type becomes datetime, and if it fails the column's values and type are left
exactly as they were. -/
theorem c2_all_or_nothing (t : Table) (j : Nat) (h : t.Rect) (hj : j < t.dtypes.length)
    (hobj : t.dtypes.getD j .number = .object) :
    ((∃ e, to_datetime (colVals t j) = .error e)
        ↔ ∃ v ∈ colVals t j, v ≠ .na ∧ ∃ e, parseCell v = .error e)
    ∧ (∀ ds, to_datetime (colVals t j) = .ok ds →
        colVals (coerceDates t) j = ds
          ∧ (coerceDates t).dtypes.getD j .number = .datetime)
    ∧ (∀ e, to_datetime (colVals t j) = .error e →
        colVals (coerceDates t) j = colVals t j
          ∧ (coerceDates t).dtypes.getD j .number = .object) := by
  refine ⟨?_, ?_, ?_⟩
  · constructor
    · rintro ⟨e, he⟩
      obtain ⟨v, hv, e2, he2⟩ := (to_datetime_error_iff _).mp ⟨e, he⟩
      exact ⟨v, hv, parseCell_error_ne_na v e2 he2, e2, he2⟩
    · rintro ⟨v, hv, _, e, he⟩
      exact (to_datetime_error_iff _).mpr ⟨v, hv, e, he⟩
  · intro ds hds
    have hmask : (okMask t).getD j false = true := by
      rw [okMask_getD t j hj, hds, decide_eq_true hobj]
      rfl
    constructor
    · rw [colVals_coerceDates t h j hj, hmask, to_datetime_ok_eq _ ds hds]
      exact List.map_congr_left (fun v _ => rfl)
    · rw [dtypes_coerceDates_getD t j hj, hmask, if_pos rfl]
  · intro e he
    have hmask : (okMask t).getD j false = false := by
      rw [okMask_getD t j hj, he]
      simp [Except.toOption]
    constructor
    · rw [colVals_coerceDates t h j hj, hmask]
      exact map_eq_self _ _ (fun v _ => coerceCell_false v)
    · rw [dtypes_coerceDates_getD t j hj, hmask, if_neg (by simp)]
      exact hobj

/-- C2 witness: a parseable text column is coerced wholesale to dates. -/
theorem c2_witness :
    colVals (coerceDates exTdates) 0 = [.date 20240101, .na]
    ∧ (coerceDates exTdates).dtypes.getD 0 .number = .datetime :=
  (c2_all_or_nothing exTdates 0 (by decide) (by decide) (by decide)).2.1
    [.date 20240101, .na] (by rfl)

/-- C3, counterexample: the claim quantifies over all columns regardless of
runtime classification, but a datetime-classified column with a missing cell
is touched by no stage: the missing value survives cleaning even though the
column has a non-missing value. -/
theorem c3_counterexample :
    (∃ v ∈ colVals exTdtcol 0, v ≠ .na)
    ∧ Value.na ∈ colVals (clean_data exTdtcol) 0 := by
  decide

/-- C3, amended: missing-value elimination holds for the columns the pipeline
classifies and fills, namely object-classified columns and well-typed
number-classified columns with at least one non-missing value; a column of any
other classification (e.g. datetime) can keep its missing values. -/
theorem c3_no_missing (t : Table) (h : t.Rect) (j : Nat) (hj : j < t.dtypes.length)
    (hd : t.dtypes.getD j .number = .object ∨ t.dtypes.getD j .number = .number)
    (hwt : ∀ v ∈ colVals t j, t.dtypes.getD j .number = .number → v.isNumOrNa = true)
    (hex : ∃ v ∈ colVals t j, v ≠ .na) :
    Value.na ∉ colVals (clean_data t) j := by
  rcases hd with hobj | hnum
  · exact clean_object_no_na t h j hj hobj
  · exact clean_number_no_na t h j hj hnum (fun v hv => hwt v hv hnum) hex

/-- C3 witness: in a table with a text and a numeric column the numeric
column's missing value is median-filled away. -/
theorem c3_witness : Value.na ∉ colVals (clean_data exTmixed) 1 :=
  c3_no_missing exTmixed (by decide) 1 (by decide) (Or.inr (by decide)) (by decide) (by decide)

/-- C4: row-count properties.  clean_data's output has exactly one row per
distinct input row (hence at most the input row count); stage 1 keeps the
first occurrence of each row (dedupFirst's recurrence), the survivors are a
sublist of the input rows in their original order, with no duplicates and the
same membership; stages 2-5 never change the row count. -/
theorem c4_row_count (t : Table) :
    ((clean_data t).rows.length = t.rows.dedup.length
      ∧ (clean_data t).rows.length ≤ t.rows.length)
    ∧ ((dropDuplicates t).rows = dedupFirst t.rows
      ∧ List.Sublist (dedupFirst t.rows) t.rows
      ∧ (dedupFirst t.rows).Nodup
      ∧ (∀ r, r ∈ dedupFirst t.rows ↔ r ∈ t.rows)
      ∧ (∀ (a : List Value) (l : List (List Value)),
          dedupFirst (a :: l) = a :: dedupFirst (l.filter (fun x => decide (x ≠ a)))))
    ∧ ((∀ snap (u : Table), (stripColumns snap u).rows.length = u.rows.length)
      ∧ (∀ u : Table, (fillNumeric u).rows.length = u.rows.length)
      ∧ (∀ snap (u : Table), (fillCategorical snap u).rows.length = u.rows.length)
      ∧ (∀ u : Table, (coerceDates u).rows.length = u.rows.length)) := by
  refine ⟨⟨?_, ?_⟩,
    ⟨rfl, dedupFirst_sublist _, nodup_dedupFirst _, fun r => mem_dedupFirst _ _,
      fun a l => dedupFirst_cons a l⟩,
    ⟨rows_length_stripColumns, rows_length_fillNumeric, rows_length_fillCategorical,
      rows_length_coerceDates⟩⟩
  · rw [rows_length_clean_data, length_dedupFirst]
  · rw [rows_length_clean_data]
    exact (dedupFirst_sublist _).length_le

/-- C5: column-set invariance.  The output of clean_data, and of every single
stage, has exactly the input's column names in the input's order. -/
theorem c5_columns (t : Table) :
    (clean_data t).names = t.names
    ∧ (dropDuplicates t).names = t.names
    ∧ (∀ snap, (stripColumns snap t).names = t.names)
    ∧ (fillNumeric t).names = t.names
    ∧ (∀ snap, (fillCategorical snap t).names = t.names)
    ∧ (coerceDates t).names = t.names :=
  ⟨rfl, rfl, fun _ => rfl, rfl, fun _ => rfl, rfl⟩

/-- C6: no-throw contract.  In the exception-explicit pipeline, where
to_datetime propagates a parse error unless caught and the source's per-column
try/except is the only catch, the pipeline never surfaces an error: it returns
Except.ok of exactly the pure pipeline's table, for every input. -/
theorem c6_no_throw (df : Table) : clean_data_exn df = Except.ok (clean_data df) :=
  clean_data_exn_ok df

/-- C7: the text-column set is a one-time snapshot.  clean_data passes the
dtypes taken after deduplication and before stripping both to stage 2 and to
stage 4; stages 2 and 3 never change dtypes; and stage 4 fills exactly the
snapshot's object columns — a column outside the snapshot is untouched and a
snapshot text column is mode-filled whatever its current (possibly fully
numeric-looking) values are. -/
theorem c7_snapshot (df : Table) :
    (clean_data df = coerceDates (fillCategorical (dropDuplicates df).dtypes
        (fillNumeric (stripColumns (dropDuplicates df).dtypes (dropDuplicates df)))))
    ∧ (stripColumns (dropDuplicates df).dtypes (dropDuplicates df)).dtypes
        = (dropDuplicates df).dtypes
    ∧ (fillNumeric (stripColumns (dropDuplicates df).dtypes (dropDuplicates df))).dtypes
        = (dropDuplicates df).dtypes
    ∧ (∀ (t : Table) (j : Nat), t.Rect → (dropDuplicates df).dtypes.length = t.dtypes.length →
        j < t.dtypes.length → (dropDuplicates df).dtypes.getD j .number ≠ .object →
        colVals (fillCategorical (dropDuplicates df).dtypes t) j = colVals t j)
    ∧ (∀ (t : Table) (j : Nat), t.Rect → (dropDuplicates df).dtypes.length = t.dtypes.length →
        j < t.dtypes.length → (dropDuplicates df).dtypes.getD j .number = .object →
        colVals (fillCategorical (dropDuplicates df).dtypes t) j
          = (colVals t j).map (fillCell (modeFill t j))) := by
  refine ⟨rfl, rfl, rfl, ?_, ?_⟩
  · intro t j ht hlen hj hne
    rw [colVals_fillCategorical t _ ht hlen j hj]
    exact map_eq_self _ _ (fun v _ => stage4cell_not_object _ hne _ v)
  · intro t j ht hlen hj hobj
    rw [colVals_fillCategorical t _ ht hlen j hj]
    apply List.map_congr_left
    intro v _
    rw [hobj, stage4cell_object]

/-- C7 witness: a snapshot text column whose stripped values look numeric is
still mode-filled by stage 4. -/
theorem c7_witness :
    colVals (fillCategorical (dropDuplicates exTnumlike).dtypes exTnumlike) 0
      = (colVals exTnumlike 0).map (fillCell (modeFill exTnumlike 0)) :=
  (c7_snapshot exTnumlike).2.2.2.2 exTnumlike 0 (by decide) (by decide) (by decide) (by decide)

/-- C8: a number-classified column whose cells are all missing has an
undefined (NaN) median, the fill replaces nothing, and the column is still
entirely missing in clean_data's output. -/
theorem c8_all_missing_numeric (t : Table) (h : t.Rect) (j : Nat) (hj : j < t.dtypes.length)
    (hnum : t.dtypes.getD j .number = .number)
    (hall : ∀ v ∈ colVals t j, v = .na) :
    median (colVals (dropDuplicates t) j) = .na
    ∧ ∀ v ∈ colVals (clean_data t) j, v = .na := by
  have hall1 : ∀ v ∈ colVals (dropDuplicates t) j, v = .na := fun v hv =>
    hall v ((mem_colVals_dropDuplicates t j v).mp hv)
  have hmed : median (colVals (dropDuplicates t) j) = .na := by
    rw [median_eq_na_iff]
    unfold colNums
    exact List.filterMap_eq_nil_iff.mpr (fun v hv => by rw [hall1 v hv])
  refine ⟨hmed, ?_⟩
  rw [clean_number_col t h j hj hnum, hmed]
  intro v hv
  obtain ⟨u, hu, rfl⟩ := List.mem_map.mp hv
  rw [hall1 u hu]
  rfl

/-- C8 witness: the single all-missing numeric column stays all missing. -/
theorem c8_witness :
    median (colVals (dropDuplicates exTallna) 0) = .na
    ∧ ∀ v ∈ colVals (clean_data exTallna) 0, v = .na :=
  c8_all_missing_numeric exTallna (by decide) 0 (by decide) (by decide) (by decide)

/-- C9, counterexample: the caller's table object is not mutated in place.
After running the reference-passing pipeline on a store holding one table, the
caller's reference still holds the original table, although cleaning does
change this table — so the caller's object does not reflect the five stages. -/
theorem c9_counterexample :
    (clean_data_ref [exTcell] 0).1.getD 0 emptyTable = exTcell
    ∧ clean_data exTcell ≠ exTcell := by
  decide

/-- C9, amended: the line df = df.drop_duplicates() rebinds the local df to a
fresh object; stages 2-5 mutate that fresh object.  Hence after the call the
caller's object is unchanged, the function's result is the cleaned table, and
it lives at a fresh reference, not the caller's. -/
theorem c9_fresh_output (st : Store) (r : Nat) (h : r < st.length) :
    ((clean_data_ref st r).1.getD r emptyTable = st.getD r emptyTable)
    ∧ ((clean_data_ref st r).1.getD (clean_data_ref st r).2 emptyTable
        = clean_data (st.getD r emptyTable))
    ∧ (clean_data_ref st r).2 = st.length :=
  clean_data_ref_spec st r h

/-- C9 witness: the frame property at a concrete one-table store. -/
theorem c9_witness :
    ((clean_data_ref [exTcell] 0).1.getD 0 emptyTable = [exTcell].getD 0 emptyTable)
    ∧ ((clean_data_ref [exTcell] 0).1.getD (clean_data_ref [exTcell] 0).2 emptyTable
        = clean_data ([exTcell].getD 0 emptyTable))
    ∧ (clean_data_ref [exTcell] 0).2 = [exTcell].length :=
  c9_fresh_output [exTcell] 0 (by decide)

/-- C10: stage 2's .str.strip() maps every non-string, non-missing cell of a
text-classified column to the missing marker, so cleaning can create missing
values that were not in the input; stage 4 then fills them with the column's
mode.  Concretely, an object column [1, "a"] has no missing cell, gains one
after stripping, and clean_data outputs ["a", "a"]. -/
theorem c10_strip_non_strings :
    (∀ q : Rat, stage2cell .object (.num q) = .na)
    ∧ (∀ n : Nat, stage2cell .object (.date n) = .na)
    ∧ stage2cell .object .na = .na
    ∧ (∀ r ∈ exTobjmix.rows, Value.na ∉ r)
    ∧ Value.na ∈ colVals (stripColumns exTobjmix.dtypes (dropDuplicates exTobjmix)) 0
    ∧ colVals (clean_data exTobjmix) 0 = [.str "a", .str "a"] := by
  refine ⟨fun q => rfl, fun n => rfl, rfl, ?_, ?_, ?_⟩ <;> decide

/-- C10 witness: the first input row of the concrete table has no missing
cell, by the theorem's fourth conjunct applied at that row. -/
theorem c10_witness : Value.na ∉ [Value.num (1 : Rat)] :=
  c10_strip_non_strings.2.2.2.1 [.num 1] (by decide)
